import Mathlib

/-!
Verification of the raycasting-sandbox grid traversal and geometry engine.

The development shallowly embeds the Python sources (`raycasting.py`,
`player.py`, `blocks.py`).  Continuous coordinates (Python floats) are
embedded as rationals `ℚ`; Python's `math.inf` sentinel in `step_to_edge`
is embedded as `Option ℚ` with `none` standing for infinity; the unbounded
`while` loops of `CastingRay.cast` and of the bounds-shrinking inner loop
are given explicit fuel, returning `none` when the fuel runs out (the
Python loops have no such bound, so a run that needs more fuel simply
corresponds to a longer — possibly non-terminating — execution).

The grid interface (`CellMap`) and the helpers `split_position` and
`get_enter_side` live in `cells.py`, which is not part of the sources at
hand; they are modelled from the spec where marked.
-/

/-- One compass side of a cell (`directions.Direction` single flags).
Modelled from the spec: `directions.py` is not among the sources; §3 of the
spec describes `CompassDirection` as a 4-bit flag set over UP, DOWN, LEFT,
RIGHT.  A `Side` is one such flag. -/
inductive Side
  | up
  | down
  | left
  | right
deriving DecidableEq, Repr

/-- A set of compass sides (a `CompassDirection` bitmask value).
Modelled from the spec (§3): a 4-bit flag set combinable by union. -/
structure SideSet where
  up : Bool := false
  down : Bool := false
  left : Bool := false
  right : Bool := false
deriving DecidableEq, Repr

/-- Membership of a single flag in a `CompassDirection` bitmask
(`sides & enter_side` in `raycasting.py` line 112). -/
def SideSet.mem (s : SideSet) : Side → Bool
  | .up => s.up
  | .down => s.down
  | .left => s.left
  | .right => s.right

/-- A portal link target: destination cell coordinates and destination side
(`blocks.Portal.links` values). -/
abbrev PortalLink := (ℤ × ℤ) × Side

/-- The four-keyed link table of a portal (`blocks.Portal.links`): every
compass key present, each value optional. -/
structure PortalLinks where
  up : Option PortalLink := none
  down : Option PortalLink := none
  left : Option PortalLink := none
  right : Option PortalLink := none
deriving DecidableEq, Repr

/-- `links[direction]` lookup. -/
def PortalLinks.get (l : PortalLinks) : Side → Option PortalLink
  | .up => l.up
  | .down => l.down
  | .left => l.left
  | .right => l.right

/-- `blocks.Wall`: solid barrier variants. -/
inductive Wall
  | NORMAL
  | BORDER
deriving DecidableEq, Repr

/-- `blocks.Mirror`: solid barrier that reflects rays on the given sides. -/
structure Mirror where
  sides : SideSet
deriving DecidableEq, Repr

/-- `blocks.Portal`: semi-solid barrier that teleports through linked sides. -/
structure Portal where
  active : Bool := true
  links : PortalLinks
deriving DecidableEq, Repr

/-- The value stored in a cell's `type_` field: `Wall | Mirror | Portal | bool`,
with Python `False` standing for an empty cell (`empty` here). -/
inductive CellType
  | empty
  | wall (w : Wall)
  | mirror (m : Mirror)
  | portal (p : Portal)
deriving DecidableEq, Repr

/-- Python truthiness of a cell's `type_`: `False` (empty) is falsy, every
block object is truthy.  This is the blocks-movement test used by
`bool(...)`/`if not ... .type_` in the sources. -/
def CellType.blocks : CellType → Bool
  | .empty => false
  | _ => true

/-- `isinstance(type_, Portal)` (`player.py` line 84). -/
def CellType.isPortal : CellType → Bool
  | .portal _ => true
  | _ => false

/-- A 2D continuous point or heading (a `pygame.Vector2`). -/
abbrev Vec := ℚ × ℚ

/-- The grid interface consumed by the core (the external `cells.CellMap`):
cell-size, continuous map size, cell lookup, bounds test and the portal
transform, kept abstract exactly as the core consumes them (spec §6). -/
structure CellMap where
  square_size : ℚ
  size : Vec
  get_cell : ℤ → ℤ → CellType
  in_bounds : Vec → Bool
  portal_transform : Vec → Vec → Vec × Vec

/-- End-of-segment tag: `Wall | Mirror | Portal | bool` where the Python
boolean `False` tag (distance budget exhausted) is `exhausted`. -/
inductive EndType
  | wall (w : Wall)
  | mirror (m : Mirror)
  | portal (p : Portal)
  | exhausted
deriving DecidableEq, Repr

/-- Whether a segment ended at a portal teleport. -/
def EndType.isPortal : EndType → Bool
  | .portal _ => true
  | _ => false

/-- `raycasting.RaySegment`. -/
structure RaySegment where
  start_pos : Vec
  end_pos : Vec
  distance : ℚ
  end_type : EndType
deriving DecidableEq, Repr

/-- The mutable state of `raycasting.CastingRay` (its `__init__` fields).
`visible_distance` is an `int` in the source; it is embedded in `ℚ`, where
the integers sit. -/
structure CastingRay where
  direction : Vec
  visible_distance : ℚ
  total_distance : ℚ
  segment_distance : ℚ
  segments : List RaySegment
  points : List Vec
  start_position : Vec
  end_position : Vec
  cell_map : CellMap

/-- `CastingRay.__init__`: zeroed distances, empty lists, both positions at
the player's position. -/
def mkRay (direction : Vec) (visible_distance : ℚ) (cell_map : CellMap)
    (player_position : Vec) : CastingRay :=
  { direction := direction
    visible_distance := visible_distance
    total_distance := 0
    segment_distance := 0
    segments := []
    points := []
    start_position := player_position
    end_position := player_position
    cell_map := cell_map }

/-- Modelled from the spec: `split_position` from the missing `cells.py`
(spec §4.3 step 1 and §6): split a continuous position into integer cell
coordinates and the fractional offset in `[0,1)²` within that cell, in
cell-fraction units. -/
def split_position (p : Vec) (square_size : ℚ) : (ℤ × ℤ) × Vec :=
  let cx : ℤ := ⌊p.1 / square_size⌋
  let cy : ℤ := ⌊p.2 / square_size⌋
  ((cx, cy), (p.1 / square_size - cx, p.2 / square_size - cy))

/-- `a ≤ b` on per-axis entry times where `none` stands for an axis that was
never crossed (infinite time). -/
def timeLE : Option ℚ → Option ℚ → Bool
  | _, none => true
  | none, some _ => false
  | some a, some b => a ≤ b

/-- Modelled from the spec: `get_enter_side` from the missing `cells.py`
(spec §4.3 step 2 and §6): the compass face the ray is currently crossing
into, derived purely from the fractional offset and the heading sign per
axis — per axis the face pointed away from the heading is the candidate,
at entry time offset-distance-from-that-face divided by the heading
component; the axis crossed most recently (least time) wins.  The y axis
grows downward (pygame), so a positive y heading enters through the UP
face. -/
def get_enter_side (cell_pos : Vec) (direction : Vec) : Side :=
  let tx : Option ℚ :=
    if direction.1 > 0 then some (cell_pos.1 / direction.1)
    else if direction.1 < 0 then some ((1 - cell_pos.1) / (-direction.1))
    else none
  let ty : Option ℚ :=
    if direction.2 > 0 then some (cell_pos.2 / direction.2)
    else if direction.2 < 0 then some ((1 - cell_pos.2) / (-direction.2))
    else none
  if timeLE tx ty then (if direction.1 > 0 then .left else .right)
  else (if direction.2 > 0 then .up else .down)

/-- `min` over step distances where `none` embeds Python's `math.inf`. -/
def minWithInf : Option ℚ → Option ℚ → Option ℚ
  | none, b => b
  | a, none => a
  | some a, some b => some (min a b)

/-- `CastingRay.step_to_edge` (raycasting.py lines 166-180): in a unit
square, the distance to the edge in a given direction; `none` embeds the
`math.inf` initial value of an axis whose heading component is zero, and
`1/1000` the literal `0.001`. -/
def step_to_edge (position : Vec) (direction : Vec) : Option ℚ :=
  let step_x : Option ℚ :=
    if direction.1 > 0 then some ((1 - position.1) / direction.1)
    else if direction.1 < 0 then some (position.1 / |direction.1| + 1/1000)
    else none
  let step_y : Option ℚ :=
    if direction.2 > 0 then some ((1 - position.2) / direction.2)
    else if direction.2 < 0 then some (position.2 / |direction.2| + 1/1000)
    else none
  minWithInf step_x step_y

/-- `CastingRay.position_step`: `direction*distance*square_size`. -/
def CastingRay.position_step (r : CastingRay) (distance : ℚ) : Vec :=
  (r.direction.1 * distance * r.cell_map.square_size,
   r.direction.2 * distance * r.cell_map.square_size)

/-- `CastingRay.add_segment_and_point`. -/
def CastingRay.add_segment_and_point (r : CastingRay) (end_type : EndType) :
    CastingRay :=
  { r with
    segments := r.segments ++
      [{ start_pos := r.start_position
         end_pos := r.end_position
         distance := r.segment_distance
         end_type := end_type }]
    points := r.points ++ [r.end_position] }

/-- The inner `while True: adjusted *= 0.99 ...` loop of `take_step`
(raycasting.py lines 85-91), given explicit fuel: repeatedly cut the
adjusted distance by 1% until the shortened step lands in bounds. -/
def CastingRay.shrink_step (r : CastingRay) : ℕ → ℚ → Option ℚ
  | 0, _ => none
  | fuel + 1, adjusted =>
    let adjusted := adjusted * (99 / 100)
    if r.cell_map.in_bounds (r.end_position + r.position_step adjusted) then
      some adjusted
    else r.shrink_step fuel adjusted

/-- Apply the shared tail of `take_step`'s terminating branches
(raycasting.py lines 93-96): advance by the adjusted distance, accumulate
it, and close the segment with the given tag. -/
def CastingRay.finish_step (r : CastingRay) (adjusted : ℚ) (t : EndType) :
    CastingRay :=
  CastingRay.add_segment_and_point
    { r with
      end_position := r.end_position + r.position_step adjusted
      total_distance := r.total_distance + adjusted
      segment_distance := r.segment_distance + adjusted } t

/-- `CastingRay.take_step` (raycasting.py lines 71-101).  Returns the new
state and whether the cast loop breaks; `none` when the inner
bounds-shrinking loop ran out of fuel.  A `step_to_edge` of `math.inf`
(here `none`) always exceeds the finite visible distance, so it takes the
distance-exhausted branch directly. -/
def CastingRay.take_step (r : CastingRay) (cell_pos : Vec) (fuel : ℕ) :
    Option (CastingRay × Bool) :=
  match step_to_edge cell_pos r.direction with
  | none =>
    -- infinite step distance: new total exceeds visible_distance (line 79)
    some (r.finish_step (r.visible_distance - r.total_distance) .exhausted, true)
  | some step_distance =>
    let new_position := r.end_position + r.position_step step_distance
    let new_total_distance := r.total_distance + step_distance
    if new_total_distance > r.visible_distance ∨
        ¬ r.cell_map.in_bounds new_position then
      if new_total_distance > r.visible_distance then
        -- total distance with step exceeds visible distance, shorten to maximum
        some (r.finish_step (r.visible_distance - r.total_distance) .exhausted,
              true)
      else
        -- new position is out of bounds, shorten until it is within bounds
        match r.shrink_step fuel step_distance with
        | none => none
        | some adjusted => some (r.finish_step adjusted (.wall .BORDER), true)
    else
      some ({ r with
              end_position := new_position
              total_distance := new_total_distance
              segment_distance := r.segment_distance + step_distance }, false)

/-- The offsets of `raycasting.ADJACENT_OFFSETS`. -/
def ADJACENT_OFFSETS : Side → ℤ × ℤ
  | .up => (0, -1)
  | .right => (1, 0)
  | .down => (0, 1)
  | .left => (-1, 0)

/-- `CastingRay.mirror_reflect` (raycasting.py lines 137-152): reflect the
direction according to the occupancy of the neighbor cell one step in the
`enter_side` direction from the mirror's cell. -/
def CastingRay.mirror_reflect (r : CastingRay) (cell : ℤ × ℤ)
    (enter_side : Side) : CastingRay :=
  let adjacent : ℤ × ℤ := (cell.1 + (ADJACENT_OFFSETS enter_side).1,
                           cell.2 + (ADJACENT_OFFSETS enter_side).2)
  if (r.cell_map.get_cell adjacent.1 adjacent.2).blocks then
    -- reflect in possible direction (exposed side)
    match enter_side with
    | .left | .right => { r with direction := (r.direction.1, -r.direction.2) }
    | .up | .down => { r with direction := (-r.direction.1, r.direction.2) }
  else
    -- reflect in normal direction (expected side)
    match enter_side with
    | .left | .right => { r with direction := (-r.direction.1, r.direction.2) }
    | .up | .down => { r with direction := (r.direction.1, -r.direction.2) }

/-- The control action `handle_type` reports back to the cast loop: the
Python strings `"break"`, `"continue"` and `''`. -/
inductive CastAction
  | halt
  | skip
  | fall
deriving DecidableEq, Repr

/-- `CastingRay.handle_type` (raycasting.py lines 103-135): dispatch on the
cell type at the ray's end position.  `Wall.BORDER` and empty cells fall
through to the default `return ''`.  The `1/20` literal is the source's
`0.05` portal nudge. -/
def CastingRay.handle_type (r : CastingRay) (cell_type : CellType)
    (enter_side : Side) (_cell : ℤ × ℤ) : CastingRay × CastAction :=
  match cell_type with
  | .wall .NORMAL => (r.add_segment_and_point (.wall .NORMAL), .halt)
  | .mirror m =>
    if ¬ m.sides.mem enter_side then
      (r.add_segment_and_point (.wall .NORMAL), .halt)
    else
      let r := r.add_segment_and_point (.mirror m)
      let r := { r with start_position := r.end_position, segment_distance := 0 }
      (r.mirror_reflect _cell enter_side, .fall)
  | .portal p =>
    if (p.links.get enter_side).isNone then
      (r.add_segment_and_point (.wall .NORMAL), .halt)
    else
      let r := r.add_segment_and_point (.portal p)
      let r := { r with start_position := r.end_position, segment_distance := 0 }
      let transformed := r.cell_map.portal_transform r.start_position r.direction
      -- start_position += direction*0.05: avoid clipping into portal walls
      let nudged : Vec := (transformed.1.1 + transformed.2.1 * (1 / 20),
                           transformed.1.2 + transformed.2.2 * (1 / 20))
      ({ r with
         start_position := nudged
         direction := transformed.2
         end_position := nudged }, .skip)
  | _ => (r, .fall)

/-- The `while True` loop of `CastingRay.cast` (raycasting.py lines 51-69),
with explicit fuel: `none` when the fuel runs out before the ray
terminates. -/
def cast_loop : ℕ → CastingRay → Option CastingRay
  | 0, _ => none
  | fuel + 1, r =>
    let r := { r with points := r.points ++ [r.end_position] }
    let split := split_position r.end_position r.cell_map.square_size
    let cell_type := r.cell_map.get_cell split.1.1 split.1.2
    let enter_side := get_enter_side split.2 r.direction
    match r.handle_type cell_type enter_side split.1 with
    | (r, .halt) => some r
    | (r, .skip) => cast_loop fuel r
    | (r, .fall) =>
      match r.take_step split.2 fuel with
      | none => none
      | some (r, true) => some r
      | some (r, false) => cast_loop fuel r

/-- `CastingRay.cast` with explicit fuel. -/
def CastingRay.cast (r : CastingRay) (fuel : ℕ) : Option CastingRay :=
  cast_loop fuel r

/-- The movement branch of `Player.move` (player.py lines 76-99), taken
when the resolved movement combo is non-NONE: from the current position,
the facing direction and the full candidate destination `new_position`
(current position plus the rotated, speed-scaled displacement computed on
lines 74-76), either teleport through a portal or resolve the move per
axis.  `int(v // square_size)` on a float is its floor.  The unconditional
radius clamp (player.py lines 101-105) happens afterwards and is outside
this function.  Returns the new (position, direction). -/
def Player.move_core (m : CellMap) (position direction new_position : Vec) :
    Vec × Vec :=
  let current_cell : ℤ × ℤ :=
    (⌊position.1 / m.square_size⌋, ⌊position.2 / m.square_size⌋)
  let new_cell : ℤ × ℤ :=
    (⌊new_position.1 / m.square_size⌋, ⌊new_position.2 / m.square_size⌋)
  -- check if moving from empty cell to portal cell
  if (m.get_cell new_cell.1 new_cell.2).isPortal ∧
      m.get_cell current_cell.1 current_cell.2 = .empty then
    m.portal_transform new_position direction
  else
    -- splitting x and y allows for diagonal "gliding"
    let x1 : ℚ :=
      if ¬ (m.get_cell ⌊new_position.1 / m.square_size⌋
              ⌊position.2 / m.square_size⌋).blocks then new_position.1
      else position.1
    let y1 : ℚ :=
      if ¬ (m.get_cell ⌊x1 / m.square_size⌋
              ⌊new_position.2 / m.square_size⌋).blocks then new_position.2
      else position.2
    ((x1, y1), direction)

/-- Follows the spec's words (§4.5 step 4): attempt the X-only move and the
Y-only move independently, committing each axis only if its respective
destination cell does not block movement — the Y-only move's destination
cell here is taken from the original, pre-X position, as independence
requires.  Used to compare against `Player.move_core`. -/
def Player.move_axes_independent (m : CellMap)
    (position direction new_position : Vec) : Vec × Vec :=
  let current_cell : ℤ × ℤ :=
    (⌊position.1 / m.square_size⌋, ⌊position.2 / m.square_size⌋)
  let new_cell : ℤ × ℤ :=
    (⌊new_position.1 / m.square_size⌋, ⌊new_position.2 / m.square_size⌋)
  if (m.get_cell new_cell.1 new_cell.2).isPortal ∧
      m.get_cell current_cell.1 current_cell.2 = .empty then
    m.portal_transform new_position direction
  else
    let x1 : ℚ :=
      if ¬ (m.get_cell ⌊new_position.1 / m.square_size⌋
              ⌊position.2 / m.square_size⌋).blocks then new_position.1
      else position.1
    let y1 : ℚ :=
      if ¬ (m.get_cell ⌊position.1 / m.square_size⌋
              ⌊new_position.2 / m.square_size⌋).blocks then new_position.2
      else position.2
    ((x1, y1), direction)

/-- Python's float modulo `a % b`: `a - b * ⌊a / b⌋` (for `b > 0` the
result lies in `[0, b)`). -/
def qmod (a b : ℚ) : ℚ := a - b * ⌊a / b⌋

/-- Python's `statistics.median` on a nonempty list of rationals: sort
ascending and take the middle element, or the mean of the two middle
elements when the length is even.  (`statistics.median` raises on an empty
list; the `0` returned here for `[]` is never relied upon.) -/
def statistics_median (l : List ℚ) : ℚ :=
  let s := List.insertionSort (· ≤ ·) l
  if l.length % 2 = 1 then s.getD (l.length / 2) 0
  else (s.getD (l.length / 2 - 1) 0 + s.getD (l.length / 2) 0) / 2

/-- `Raycaster.distribute_angles` (raycasting.py lines 192-197): `ray_count`
angles at spacing `fov/(ray_count-1)` (nominal 1 when `ray_count ≤ 1`),
shifted so that their median sits at `center`, each reduced modulo 360. -/
def distribute_angles (fov : ℚ) (ray_count : ℕ) (center : ℚ) : List ℚ :=
  let interval : ℚ := if ray_count > 1 then fov / ((ray_count : ℚ) - 1) else 1
  let angles := (List.range ray_count).map (fun i : ℕ => (i : ℚ) * interval)
  let median := statistics_median angles
  angles.map (fun angle => qmod (angle + (center - median)) 360)

/-- The per-axis edge distance as the spec states it (§4.3 step 4): an axis
with zero heading component never limits the step (infinity, `none`); a
positive component gives `(1 - offset)/component`; a negative component
gives `offset/|component|` plus the fixed epsilon `1/1000`. -/
def axis_edge_distance (offset component : ℚ) : Option ℚ :=
  if component = 0 then none
  else if component > 0 then some ((1 - offset) / component)
  else some (offset / |component| + 1/1000)

/-- The ray never finishes, whatever fuel the embedded loop is given: the
Python `while True` loop runs forever. -/
def castDiverges (r : CastingRay) : Prop :=
  ∀ fuel : ℕ, r.cast fuel = none

/-! Concrete grid configurations used as inputs below. -/

/-- A portal whose LEFT side is linked to the given cell's LEFT side. -/
def leftLinkedPortal (target : ℤ × ℤ) : Portal :=
  { links := { left := some (target, .left) } }

/-- Two portal cells `(0,0)` and `(2,0)` (unit squares), each LEFT side
linked to the other; the portal transform drops the ray at the destination
portal's LEFT boundary with the heading preserved (the orientation delta
between two LEFT sides is zero). -/
def cycleMap : CellMap :=
  { square_size := 1
    size := (4, 1)
    get_cell := fun x y =>
      if x = 0 ∧ y = 0 then .portal (leftLinkedPortal (2, 0))
      else if x = 2 ∧ y = 0 then .portal (leftLinkedPortal (0, 0))
      else .empty
    in_bounds := fun p => 0 ≤ p.1 ∧ p.1 < 4 ∧ 0 ≤ p.2 ∧ p.2 < 1
    portal_transform := fun p _d =>
      if p.1 ≥ 2 then ((0, 1/2), (1, 0)) else ((2, 1/2), (1, 0)) }

/-- A ray started inside the first portal cell of `cycleMap`, heading
right. -/
def cycleRay : CastingRay := mkRay (1, 0) 10 cycleMap (1/20, 1/2)

/-- An open 10×10 map with a single NORMAL wall cell at `(2,0)`. -/
def wallMap : CellMap :=
  { square_size := 1
    size := (10, 10)
    get_cell := fun x y =>
      if x = 2 ∧ y = 0 then .wall .NORMAL else .empty
    in_bounds := fun p => 0 ≤ p.1 ∧ p.1 < 10 ∧ 0 ≤ p.2 ∧ p.2 < 10
    portal_transform := fun p d => (p, d) }

/-- A ray whose visible distance `3/2` is exactly the distance to the wall
of `wallMap`. -/
def exactWallRay : CastingRay := mkRay (1, 0) (3/2) wallMap (1/2, 1/2)

/-- A 4×4 map with a portal cell at `(1,0)` (LEFT side linked) whose
transform drops the ray near `(0,2)`, and a NORMAL wall at `(1,2)`. -/
def portalWallMap : CellMap :=
  { square_size := 1
    size := (4, 4)
    get_cell := fun x y =>
      if x = 1 ∧ y = 0 then .portal (leftLinkedPortal (0, 2))
      else if x = 1 ∧ y = 2 then .wall .NORMAL
      else .empty
    in_bounds := fun p => 0 ≤ p.1 ∧ p.1 < 4 ∧ 0 ≤ p.2 ∧ p.2 < 4
    portal_transform := fun _p _d => ((9/20, 5/2), (1, 0)) }

/-- A ray of `portalWallMap` that crosses the portal and then hits the
wall. -/
def portalWallRay : CastingRay := mkRay (1, 0) 100 portalWallMap (1/2, 1/2)

/-- An open map with a single NORMAL wall cell at `(1,1)`. -/
def cornerMap : CellMap :=
  { square_size := 1
    size := (10, 10)
    get_cell := fun x y =>
      if x = 1 ∧ y = 1 then .wall .NORMAL else .empty
    in_bounds := fun p => 0 ≤ p.1 ∧ p.1 < 10 ∧ 0 ≤ p.2 ∧ p.2 < 10
    portal_transform := fun p d => (p, d) }



/-- A marching state over `cycleMap` heading right with zero accumulated
distance: only the fields the control flow never reads are free. -/
def cycleState (e : Vec) (segs : List RaySegment) (pts : List Vec)
    (sd : ℚ) (sp : Vec) : CastingRay :=
  { direction := (1, 0)
    visible_distance := 10
    total_distance := 0
    segment_distance := sd
    segments := segs
    points := pts
    start_position := sp
    end_position := e
    cell_map := cycleMap }

def exactWallRes : CastingRay := (exactWallRay.cast 20).getD exactWallRay

def mirrorMap : CellMap :=
  { square_size := 1
    size := (10, 10)
    get_cell := fun x y =>
      if x = 2 ∧ y = 0 then .mirror { sides := { left := true } } else .empty
    in_bounds := fun p => 0 ≤ p.1 ∧ p.1 < 10 ∧ 0 ≤ p.2 ∧ p.2 < 10
    portal_transform := fun p d => (p, d) }

def mirrorRay : CastingRay := mkRay (1, 0) 10 mirrorMap (1/2, 1/2)

def mirrorRes : CastingRay := (mirrorRay.cast 30).getD mirrorRay

/-- Contiguity relation between consecutive segments: unless the earlier
segment ended at a portal teleport, it ends where the next one starts. -/
def segRel (a b : RaySegment) : Prop :=
  a.end_type.isPortal = false → a.end_pos = b.start_pos

/-- Loop invariant for contiguity: recorded segments are chained by
`segRel`, and the last recorded segment (unless it ended at a portal) ends
at the current segment start. -/
def segInv (r : CastingRay) : Prop :=
  List.Chain' segRel r.segments ∧
  ∀ seg, r.segments.getLast? = some seg → seg.end_type.isPortal = false →
    seg.end_pos = r.start_position

/-! ## Helper lemmas and claim theorems -/

lemma axis_edge_distance_eq (o d : ℚ) :
    axis_edge_distance o d =
      if d > 0 then some ((1 - o) / d)
      else if d < 0 then some (o / |d| + 1/1000)
      else none := by
  unfold axis_edge_distance
  rcases lt_trichotomy d 0 with h | h | h
  · rw [if_neg (ne_of_lt h), if_neg (not_lt.mpr h.le), if_pos h, if_neg (not_lt.mpr h.le)]
  · subst h; simp
  · rw [if_neg (ne_of_gt h), if_pos h, if_pos h]

/-- C4: For every fractional offset `(x, y)` with `x, y` in `[0,1)` and every
heading `(dx, dy)` with at least one nonzero component,
`CastingRay.step_to_edge` returns the minimum over the two axes of the
per-axis edge distance, where an axis with zero heading component
contributes infinity (never limits the step), a positive component
contributes `(1 - offset)/component`, and a negative component contributes
`offset/|component|` plus the fixed epsilon `0.001`. -/
theorem step_to_edge_is_min_of_axis_distances (x y dx dy : ℚ)
    (hx0 : 0 ≤ x) (hx1 : x < 1) (hy0 : 0 ≤ y) (hy1 : y < 1)
    (hd : dx ≠ 0 ∨ dy ≠ 0) :
    step_to_edge (x, y) (dx, dy) =
      minWithInf (axis_edge_distance x dx) (axis_edge_distance y dy) := by
  rw [axis_edge_distance_eq, axis_edge_distance_eq]
  rfl

/-- Witness for C4 at offset `(1/2, 1/2)`, heading `(1, 0)`. -/
theorem step_to_edge_is_min_of_axis_distances_witness :
    step_to_edge (1/2, 1/2) (1, 0) =
      minWithInf (axis_edge_distance (1/2) 1) (axis_edge_distance (1/2) 0) :=
  step_to_edge_is_min_of_axis_distances (1/2) (1/2) 1 0 (by norm_num)
    (by norm_num) (by norm_num) (by norm_num) (Or.inl one_ne_zero)

/-- C10: For every fractional offset `(x, y)` with `x, y` in `[0,1)` and
every direction with at least one nonzero component,
`CastingRay.step_to_edge` returns a finite, strictly positive value: each
axis divides by its heading component only after checking its sign is
nonzero, so no division by zero occurs and the minimum of the two axis
distances is greater than zero. -/
theorem step_to_edge_finite_pos (x y dx dy : ℚ)
    (hx0 : 0 ≤ x) (hx1 : x < 1) (hy0 : 0 ≤ y) (hy1 : y < 1)
    (hd : dx ≠ 0 ∨ dy ≠ 0) :
    ∃ q : ℚ, step_to_edge (x, y) (dx, dy) = some q ∧ 0 < q := by
  have hx : ∀ d : ℚ, d ≠ 0 → ∃ q : ℚ,
      (if d > 0 then some ((1 - x) / d)
       else if d < 0 then some (x / |d| + 1/1000)
       else none) = some q ∧ 0 < q := by
    intro d hd0
    rcases lt_trichotomy d 0 with h | h | h
    · refine ⟨_, by rw [if_neg (not_lt.mpr h.le), if_pos h], ?_⟩
      have : (0:ℚ) ≤ x / |d| := div_nonneg hx0 (abs_nonneg d)
      linarith
    · exact absurd h hd0
    · exact ⟨_, by rw [if_pos h], div_pos (by linarith) h⟩
  have hy : ∀ d : ℚ, d ≠ 0 → ∃ q : ℚ,
      (if d > 0 then some ((1 - y) / d)
       else if d < 0 then some (y / |d| + 1/1000)
       else none) = some q ∧ 0 < q := by
    intro d hd0
    rcases lt_trichotomy d 0 with h | h | h
    · refine ⟨_, by rw [if_neg (not_lt.mpr h.le), if_pos h], ?_⟩
      have : (0:ℚ) ≤ y / |d| := div_nonneg hy0 (abs_nonneg d)
      linarith
    · exact absurd h hd0
    · exact ⟨_, by rw [if_pos h], div_pos (by linarith) h⟩
  show ∃ q : ℚ, minWithInf
      (if dx > 0 then some ((1 - x) / dx)
       else if dx < 0 then some (x / |dx| + 1/1000) else none)
      (if dy > 0 then some ((1 - y) / dy)
       else if dy < 0 then some (y / |dy| + 1/1000) else none) = some q ∧ 0 < q
  by_cases h1 : dx = 0
  · rcases hy dy (hd.resolve_left (by simp [h1])) with ⟨q, hq, hqpos⟩
    subst h1
    rw [if_neg (lt_irrefl (0:ℚ)), if_neg (lt_irrefl (0:ℚ)), hq]
    exact ⟨q, rfl, hqpos⟩
  · rcases hx dx h1 with ⟨a, ha, hapos⟩
    rw [ha]
    by_cases h2 : dy = 0
    · subst h2
      refine ⟨a, ?_, hapos⟩
      simp [minWithInf]
    · rcases hy dy h2 with ⟨b, hb, hbpos⟩
      rw [hb]
      exact ⟨min a b, rfl, lt_min hapos hbpos⟩

/-- Witness for C10 at offset `(1/2, 1/2)`, heading `(1, -2)`. -/
theorem step_to_edge_finite_pos_witness :
    ∃ q : ℚ, step_to_edge (1/2, 1/2) (1, -2) = some q ∧ 0 < q :=
  step_to_edge_finite_pos (1/2) (1/2) 1 (-2) (by norm_num) (by norm_num)
    (by norm_num) (by norm_num) (Or.inl one_ne_zero)

/-- C5: For every mirror-reflection event at a mirror cell with entry side
`enter_side`: if the neighboring cell one step in the `enter_side`
direction from the mirror's cell is occupied (its type is truthy, i.e.
blocks movement), `CastingRay.mirror_reflect` flips the orthogonal heading
component (LEFT/RIGHT entry flips the vertical component, UP/DOWN entry
flips the horizontal component); if that neighbor is unoccupied, it flips
the matching component (LEFT/RIGHT entry flips the horizontal component,
UP/DOWN entry flips the vertical component). -/
theorem mirror_reflect_rule (r : CastingRay) (cell : ℤ × ℤ) (enter_side : Side) :
    (r.mirror_reflect cell enter_side).direction =
      if (r.cell_map.get_cell (cell.1 + (ADJACENT_OFFSETS enter_side).1)
            (cell.2 + (ADJACENT_OFFSETS enter_side).2)).blocks then
        (if enter_side = .left ∨ enter_side = .right then
          (r.direction.1, -r.direction.2)
        else (-r.direction.1, r.direction.2))
      else
        (if enter_side = .left ∨ enter_side = .right then
          (-r.direction.1, r.direction.2)
        else (r.direction.1, -r.direction.2)) := by
  cases enter_side <;>
    (simp only [CastingRay.mirror_reflect, ADJACENT_OFFSETS]
     split <;> rename_i h <;> simp [h])

/-- C6: For every reflection event, the heading vector after
`CastingRay.mirror_reflect` has the same magnitude as before (stated via
the squared norm, which keeps the statement inside `ℚ`), and exactly one
of its two components has its sign flipped (one component is negated and
the other is unchanged). -/
theorem mirror_reflect_magnitude_one_flip (r : CastingRay) (cell : ℤ × ℤ)
    (enter_side : Side) :
    ((r.mirror_reflect cell enter_side).direction.1 ^ 2 +
        (r.mirror_reflect cell enter_side).direction.2 ^ 2 =
      r.direction.1 ^ 2 + r.direction.2 ^ 2) ∧
    (((r.mirror_reflect cell enter_side).direction.1 = -r.direction.1 ∧
        (r.mirror_reflect cell enter_side).direction.2 = r.direction.2) ∨
      ((r.mirror_reflect cell enter_side).direction.1 = r.direction.1 ∧
        (r.mirror_reflect cell enter_side).direction.2 = -r.direction.2)) := by
  cases enter_side <;>
    (simp only [CastingRay.mirror_reflect, ADJACENT_OFFSETS]
     split <;> refine ⟨by simp, by simp⟩)

/-- C7: For every ray-march iteration that lands in a Portal cell: if
`links[enter_side]` is unset, `CastingRay.handle_type` closes the segment
tagged as a NORMAL wall and halts the march; otherwise it closes the
current segment tagged Portal, applies the grid interface's portal
transform to position and heading, advances the transformed position along
the new heading by the fixed epsilon `0.05 = 1/20`, sets both the new
segment start and the end position to that nudged point, and reports
`.skip` — the action on which `cast_loop` re-enters the loop immediately,
skipping the edge-step computation for that iteration. -/
theorem handle_type_portal_rule (r : CastingRay) (p : Portal) (enter_side : Side)
    (cell : ℤ × ℤ) :
    r.handle_type (.portal p) enter_side cell =
      if (p.links.get enter_side).isNone then
        (r.add_segment_and_point (.wall .NORMAL), .halt)
      else
        (let r1 := r.add_segment_and_point (.portal p)
         let r2 := { r1 with start_position := r1.end_position,
                             segment_distance := 0 }
         let t := r2.cell_map.portal_transform r2.start_position r2.direction
         let nudged : Vec := (t.1.1 + t.2.1 * (1 / 20), t.1.2 + t.2.2 * (1 / 20))
         ({ r2 with start_position := nudged, direction := t.2,
                    end_position := nudged }, .skip)) := rfl

/-- C8 (amended): For every movement tick with a non-NONE resolved
movement combo: if the cell containing the full candidate destination
position holds a Portal and the cell containing the actor's current
position is Empty, `Player.move_core` teleports the actor via the grid
interface's portal transform with no epsilon nudge; otherwise it attempts
the X-only move and then the Y-only move, committing each axis only if its
respective destination cell does not block movement — where the Y move's
destination cell is computed from the already-committed X position
(sequentially, not independently). -/
theorem move_core_rule (m : CellMap) (position direction new_position : Vec) :
    Player.move_core m position direction new_position =
      if (m.get_cell ⌊new_position.1 / m.square_size⌋
            ⌊new_position.2 / m.square_size⌋).isPortal ∧
          m.get_cell ⌊position.1 / m.square_size⌋ ⌊position.2 / m.square_size⌋
            = .empty then
        m.portal_transform new_position direction
      else
        (let x1 : ℚ :=
          if ¬ (m.get_cell ⌊new_position.1 / m.square_size⌋
                  ⌊position.2 / m.square_size⌋).blocks then new_position.1
          else position.1
         let y1 : ℚ :=
          if ¬ (m.get_cell ⌊x1 / m.square_size⌋
                  ⌊new_position.2 / m.square_size⌋).blocks then new_position.2
          else position.2
         ((x1, y1), direction)) := rfl

/-- C8 counterexample: the axes are not resolved independently.  With a
wall at cell `(1,1)`, moving from `(9/10, 9/10)` toward `(11/10, 3/2)`,
the code commits X and then blocks Y (the Y destination cell is taken at
the committed X position), while a truly independent per-axis resolution
would commit both axes. -/
theorem move_core_not_independent :
    Player.move_core cornerMap (9/10, 9/10) (0, 1) (11/10, 3/2) =
        ((11/10, 9/10), (0, 1)) ∧
    Player.move_axes_independent cornerMap (9/10, 9/10) (0, 1) (11/10, 3/2) =
        ((11/10, 3/2), (0, 1)) ∧
    ((11/10 : ℚ), (9/10 : ℚ)) ≠ ((11/10 : ℚ), (3/2 : ℚ)) := by
  refine ⟨by with_unfolding_all rfl, by with_unfolding_all rfl, by norm_num⟩

set_option maxHeartbeats 1000000 in
lemma cycle_step1 (n : ℕ) (segs : List RaySegment) (pts : List Vec)
    (sd : ℚ) (sp : Vec) :
    cast_loop (n + 1) (cycleState (1/20, 1/2) segs pts sd sp) =
      cast_loop n (cycleState (41/20, 1/2)
        (segs ++ [{ start_pos := sp, end_pos := (1/20, 1/2), distance := sd,
                    end_type := .portal (leftLinkedPortal (2, 0)) }])
        (pts ++ [(1/20, 1/2), (1/20, 1/2)]) 0 (41/20, 1/2)) := by
  simp only [cast_loop]
  norm_num [cycleState, split_position, get_enter_side, timeLE,
    CastingRay.handle_type, CastingRay.add_segment_and_point, cycleMap,
    leftLinkedPortal, PortalLinks.get]

set_option maxHeartbeats 1000000 in
lemma cycle_step2 (n : ℕ) (segs : List RaySegment) (pts : List Vec)
    (sd : ℚ) (sp : Vec) :
    cast_loop (n + 1) (cycleState (41/20, 1/2) segs pts sd sp) =
      cast_loop n (cycleState (1/20, 1/2)
        (segs ++ [{ start_pos := sp, end_pos := (41/20, 1/2), distance := sd,
                    end_type := .portal (leftLinkedPortal (0, 0)) }])
        (pts ++ [(41/20, 1/2), (41/20, 1/2)]) 0 (1/20, 1/2)) := by
  simp only [cast_loop]
  norm_num [cycleState, split_position, get_enter_side, timeLE,
    CastingRay.handle_type, CastingRay.add_segment_and_point, cycleMap,
    leftLinkedPortal, PortalLinks.get]

lemma cycle_loops (n : ℕ) :
    ∀ (segs : List RaySegment) (pts : List Vec) (sd : ℚ) (sp : Vec),
      cast_loop n (cycleState (1/20, 1/2) segs pts sd sp) = none ∧
      cast_loop n (cycleState (41/20, 1/2) segs pts sd sp) = none := by
  induction n with
  | zero => exact fun _ _ _ _ => ⟨rfl, rfl⟩
  | succ n ih =>
    intro segs pts sd sp
    constructor
    · rw [cycle_step1]
      exact (ih _ _ _ _).2
    · rw [cycle_step2]
      exact (ih _ _ _ _).1

/-- C1: the cast loop does not always terminate.  On `cycleMap` — two
portal cells whose LEFT sides are linked to each other, with a portal
transform matching the spec's contract — a ray started inside the first
portal cell teleports back and forth forever: every iteration takes the
portal branch, which commits no distance, so total distance never
increases and `CastingRay.cast` runs out of any amount of fuel (the
Python `while True` loop never exits). -/
theorem cast_diverges_on_portal_cycle : castDiverges cycleRay := by
  intro fuel
  exact (cycle_loops fuel [] [] 0 (1/20, 1/2)).1

set_option maxHeartbeats 1000000 in
/-- C2 counterexample: a completed cast whose final total distance equals
the visible distance `3/2` exactly, while the final segment is tagged with
a NORMAL wall, not with the exhausted marker: the claimed equivalence
"total = D iff exhausted" fails in the direction "total = D implies
exhausted". -/
theorem exact_wall_total_eq_budget_not_exhausted :
    exactWallRay.visible_distance = 3/2 ∧
    ((exactWallRay.cast 20).map fun st =>
        (st.total_distance, st.segments.map fun g => g.end_type)) =
      some (3/2, [.wall .NORMAL]) := by
  constructor
  · with_unfolding_all rfl
  · with_unfolding_all rfl

set_option maxHeartbeats 1000000 in
/-- C3 counterexample: segments are not contiguous across a
portal-teleport event.  On `portalWallMap` the first segment ends at the
portal entry point `(1, 1/2)` while the second segment starts at the
teleported, nudged point `(1/2, 5/2)`. -/
theorem portal_breaks_contiguity :
    ((portalWallRay.cast 20).map fun st =>
        st.segments.map fun g => (g.start_pos, g.end_pos, g.end_type.isPortal)) =
      some [((1/2, 1/2), (1, 1/2), true), ((1/2, 5/2), (1, 5/2), false)] ∧
    ((1 : ℚ), (1 : ℚ)/2) ≠ ((1 : ℚ)/2, (5 : ℚ)/2) := by
  constructor
  · with_unfolding_all rfl
  · norm_num

lemma split_position_bounds (p : Vec) (s : ℚ) :
    0 ≤ (split_position p s).2.1 ∧ (split_position p s).2.1 < 1 ∧
    0 ≤ (split_position p s).2.2 ∧ (split_position p s).2.2 < 1 :=
  ⟨Int.fract_nonneg (p.1 / s), Int.fract_lt_one (p.1 / s),
   Int.fract_nonneg (p.2 / s), Int.fract_lt_one (p.2 / s)⟩

lemma step_to_edge_nonneg (x y dx dy : ℚ) (hx0 : 0 ≤ x) (hx1 : x < 1)
    (hy0 : 0 ≤ y) (hy1 : y < 1) (q : ℚ)
    (h : step_to_edge (x, y) (dx, dy) = some q) : 0 ≤ q := by
  have hx : ∀ d v : ℚ,
      (if d > 0 then some ((1 - x) / d)
       else if d < 0 then some (x / |d| + 1/1000)
       else none) = some v → 0 ≤ v := by
    intro d v hv
    rcases lt_trichotomy d 0 with hd | hd | hd
    · rw [if_neg (not_lt.mpr hd.le), if_pos hd, Option.some_inj] at hv
      have : (0:ℚ) ≤ x / |d| := div_nonneg hx0 (abs_nonneg d)
      linarith [hv]
    · subst hd; rw [if_neg (lt_irrefl 0), if_neg (lt_irrefl 0)] at hv; cases hv
    · rw [if_pos hd, Option.some_inj] at hv
      subst hv
      exact div_nonneg (by linarith) hd.le
  have hy : ∀ d v : ℚ,
      (if d > 0 then some ((1 - y) / d)
       else if d < 0 then some (y / |d| + 1/1000)
       else none) = some v → 0 ≤ v := by
    intro d v hv
    rcases lt_trichotomy d 0 with hd | hd | hd
    · rw [if_neg (not_lt.mpr hd.le), if_pos hd, Option.some_inj] at hv
      have : (0:ℚ) ≤ y / |d| := div_nonneg hy0 (abs_nonneg d)
      linarith [hv]
    · subst hd; rw [if_neg (lt_irrefl 0), if_neg (lt_irrefl 0)] at hv; cases hv
    · rw [if_pos hd, Option.some_inj] at hv
      subst hv
      exact div_nonneg (by linarith) hd.le
  have h' : minWithInf
      (if dx > 0 then some ((1 - x) / dx)
       else if dx < 0 then some (x / |dx| + 1/1000) else none)
      (if dy > 0 then some ((1 - y) / dy)
       else if dy < 0 then some (y / |dy| + 1/1000) else none) = some q := h
  revert h'
  cases hex : (if dx > 0 then some ((1 - x) / dx)
      else if dx < 0 then some (x / |dx| + 1/1000) else none) with
  | none =>
    cases hey : (if dy > 0 then some ((1 - y) / dy)
        else if dy < 0 then some (y / |dy| + 1/1000) else none) with
    | none => intro h'; cases h'
    | some b =>
      intro h'
      rw [show minWithInf none (some b) = some b from rfl, Option.some_inj] at h'
      subst h'
      exact hy dy _ hey
  | some a =>
    cases hey : (if dy > 0 then some ((1 - y) / dy)
        else if dy < 0 then some (y / |dy| + 1/1000) else none) with
    | none =>
      intro h'
      rw [show minWithInf (some a) none = some a from rfl, Option.some_inj] at h'
      subst h'
      exact hx dx _ hex
    | some b =>
      intro h'
      rw [show minWithInf (some a) (some b) = some (min a b) from rfl,
        Option.some_inj] at h'
      subst h'
      exact le_min (hx dx a hex) (hy dy b hey)

lemma shrink_step_le (r : CastingRay) : ∀ (fuel : ℕ) (a b : ℚ),
    r.shrink_step fuel a = some b → 0 ≤ a → 0 ≤ b ∧ b ≤ a := by
  intro fuel
  induction fuel with
  | zero => intro a b h; cases h
  | succ n ih =>
    intro a b h ha
    rw [CastingRay.shrink_step] at h
    split at h
    · rw [Option.some_inj] at h
      subst h
      constructor
      · positivity
      · nlinarith
    · obtain ⟨h0, h1⟩ := ih _ _ h (by positivity)
      exact ⟨h0, by nlinarith⟩

lemma mirror_reflect_proj (r : CastingRay) (c : ℤ × ℤ) (es : Side) :
    (r.mirror_reflect c es).visible_distance = r.visible_distance ∧
    (r.mirror_reflect c es).cell_map = r.cell_map ∧
    (r.mirror_reflect c es).total_distance = r.total_distance ∧
    (r.mirror_reflect c es).segments = r.segments ∧
    (r.mirror_reflect c es).start_position = r.start_position ∧
    (r.mirror_reflect c es).end_position = r.end_position := by
  cases es <;>
    (simp only [CastingRay.mirror_reflect, ADJACENT_OFFSETS]
     split <;> simp)

lemma add_segment_segments (r : CastingRay) (t : EndType) :
    (r.add_segment_and_point t).segments =
      r.segments ++ [{ start_pos := r.start_position
                       end_pos := r.end_position
                       distance := r.segment_distance
                       end_type := t }] := rfl

lemma add_segment_getLast (r : CastingRay) (t : EndType) :
    (r.add_segment_and_point t).segments.getLast? =
      some { start_pos := r.start_position
             end_pos := r.end_position
             distance := r.segment_distance
             end_type := t } := by
  rw [add_segment_segments, List.getLast?_concat]

lemma handle_type_spec (r : CastingRay) (ct : CellType) (es : Side) (c : ℤ × ℤ)
    (r' : CastingRay) (a : CastAction)
    (heq : r.handle_type ct es c = (r', a)) :
    r'.visible_distance = r.visible_distance ∧
    r'.cell_map = r.cell_map ∧
    r'.total_distance = r.total_distance ∧
    (a = .halt → ∀ seg, r'.segments.getLast? = some seg →
      seg.end_type = .wall .NORMAL) := by
  cases ct with
  | empty =>
    rw [show r.handle_type .empty es c = (r, .fall) from rfl] at heq
    injection heq with h1 h2
    subst h1; subst h2
    exact ⟨rfl, rfl, rfl, by intro h; cases h⟩
  | wall w =>
    cases w with
    | NORMAL =>
      rw [show r.handle_type (.wall .NORMAL) es c =
        (r.add_segment_and_point (.wall .NORMAL), .halt) from rfl] at heq
      injection heq with h1 h2
      subst h1; subst h2
      refine ⟨rfl, rfl, rfl, fun _ seg hseg => ?_⟩
      rw [add_segment_getLast, Option.some_inj] at hseg
      rw [← hseg]
    | BORDER =>
      rw [show r.handle_type (.wall .BORDER) es c = (r, .fall) from rfl] at heq
      injection heq with h1 h2
      subst h1; subst h2
      exact ⟨rfl, rfl, rfl, by intro h; cases h⟩
  | mirror m =>
    rw [CastingRay.handle_type] at heq
    split at heq
    · injection heq with h1 h2
      subst h1; subst h2
      refine ⟨rfl, rfl, rfl, fun _ seg hseg => ?_⟩
      rw [add_segment_getLast, Option.some_inj] at hseg
      rw [← hseg]
    · injection heq with h1 h2
      subst h1; subst h2
      obtain ⟨v1, v2, v3, -, -, -⟩ := mirror_reflect_proj
        { (r.add_segment_and_point (.mirror m)) with
          start_position := (r.add_segment_and_point (.mirror m)).end_position,
          segment_distance := 0 } c es
      exact ⟨v1, v2, v3, by intro h; cases h⟩
  | portal p =>
    rw [CastingRay.handle_type] at heq
    split at heq
    · injection heq with h1 h2
      subst h1; subst h2
      refine ⟨rfl, rfl, rfl, fun _ seg hseg => ?_⟩
      rw [add_segment_getLast, Option.some_inj] at hseg
      rw [← hseg]
    · injection heq with h1 h2
      subst h1; subst h2
      exact ⟨rfl, rfl, rfl, by intro h; cases h⟩

lemma finish_step_getLast (r : CastingRay) (adj : ℚ) (t : EndType) :
    ∀ seg, (r.finish_step adj t).segments.getLast? = some seg →
      seg.end_type = t := by
  intro seg hseg
  rw [CastingRay.finish_step, add_segment_getLast, Option.some_inj] at hseg
  rw [← hseg]

lemma take_step_spec (r : CastingRay) (cp : Vec) (fuel : ℕ)
    (r' : CastingRay) (b : Bool)
    (h0 : 0 ≤ cp.1) (h1 : cp.1 < 1) (h2 : 0 ≤ cp.2) (h3 : cp.2 < 1)
    (hle : r.total_distance ≤ r.visible_distance)
    (heq : r.take_step cp fuel = some (r', b)) :
    r'.visible_distance = r.visible_distance ∧
    r'.cell_map = r.cell_map ∧
    r'.total_distance ≤ r.visible_distance ∧
    (b = true → ∀ seg, r'.segments.getLast? = some seg →
      seg.end_type = .exhausted → r'.total_distance = r.visible_distance) := by
  have hexh : ∀ hq : r.finish_step (r.visible_distance - r.total_distance)
        EndType.exhausted = r',
      r'.visible_distance = r.visible_distance ∧
      r'.cell_map = r.cell_map ∧
      r'.total_distance ≤ r.visible_distance ∧
      (b = true → ∀ seg, r'.segments.getLast? = some seg →
        seg.end_type = .exhausted → r'.total_distance = r.visible_distance) := by
    intro hq
    subst hq
    refine ⟨rfl, rfl, ?_, ?_⟩
    · rw [show (r.finish_step (r.visible_distance - r.total_distance)
        EndType.exhausted).total_distance =
          r.total_distance + (r.visible_distance - r.total_distance) from rfl]
      linarith
    · intro _ seg _ _
      rw [show (r.finish_step (r.visible_distance - r.total_distance)
        EndType.exhausted).total_distance =
          r.total_distance + (r.visible_distance - r.total_distance) from rfl]
      ring
  rw [CastingRay.take_step] at heq
  split at heq
  · -- step_to_edge returned math.inf
    rw [Option.some_inj] at heq
    injection heq with e1 e2
    exact hexh e1
  · rename_i step_distance hstep
    simp only [] at heq
    by_cases hgt : r.total_distance + step_distance > r.visible_distance
    · rw [if_pos (Or.inl hgt), if_pos hgt, Option.some_inj] at heq
      injection heq with e1 e2
      exact hexh e1
    · by_cases hib : r.cell_map.in_bounds
          (r.end_position + r.position_step step_distance) = true
      · -- commit the step
        rw [if_neg (by push_neg; exact ⟨not_lt.mp hgt, hib⟩),
          Option.some_inj] at heq
        injection heq with e1 e2
        subst e2
        subst e1
        exact ⟨rfl, rfl, not_lt.mp hgt, by intro hb; cases hb⟩
      · -- out of bounds: shrink then close with a BORDER wall
        rw [if_pos (Or.inr hib), if_neg hgt] at heq
        split at heq
        · cases heq
        · rename_i adjusted hshrink
          rw [Option.some_inj] at heq
          injection heq with e1 e2
          subst e1
          have hstep0 : 0 ≤ step_distance :=
            step_to_edge_nonneg cp.1 cp.2 r.direction.1 r.direction.2 h0 h1 h2 h3
              step_distance hstep
          obtain ⟨ha0, ha1⟩ :=
            shrink_step_le r fuel step_distance adjusted hshrink hstep0
          have hnew : r.total_distance + step_distance ≤ r.visible_distance :=
            not_lt.mp hgt
          refine ⟨rfl, rfl, ?_, ?_⟩
          · rw [show (r.finish_step adjusted (.wall .BORDER)).total_distance =
                r.total_distance + adjusted from rfl]
            linarith
          · intro _ seg hseg hex
            have := finish_step_getLast r adjusted (.wall .BORDER) seg hseg
            rw [this] at hex
            cases hex

lemma cast_loop_total : ∀ (fuel : ℕ) (r res : CastingRay),
    cast_loop fuel r = some res →
    r.total_distance ≤ r.visible_distance →
    res.visible_distance = r.visible_distance ∧
    res.total_distance ≤ r.visible_distance ∧
    (∀ seg, res.segments.getLast? = some seg → seg.end_type = .exhausted →
      res.total_distance = r.visible_distance) := by
  intro fuel
  induction fuel with
  | zero => intro r res h _; cases h
  | succ n ih =>
    intro r res h hle
    rw [cast_loop] at h
    simp only [] at h
    split at h
    · -- handle_type broke out of the loop (a wall-tagged segment)
      rename_i r1 heq
      rw [Option.some_inj] at h
      subst h
      obtain ⟨v1, v2, v3, v4⟩ := handle_type_spec _ _ _ _ _ _ heq
      refine ⟨v1, ?_, ?_⟩
      · rw [v3]; exact hle
      · intro seg hseg hex
        have := v4 rfl seg hseg
        rw [this] at hex
        cases hex
    · -- portal teleport: the loop continues without a step
      rename_i r1 heq
      obtain ⟨v1, v2, v3, -⟩ := handle_type_spec _ _ _ _ _ _ heq
      have hle1 : r1.total_distance ≤ r1.visible_distance := by
        rw [v1, v3]; exact hle
      obtain ⟨w1, w2, w3⟩ := ih r1 res h hle1
      refine ⟨by rw [w1, v1], by rw [v1] at w2; exact w2, ?_⟩
      intro seg hseg hex
      rw [w3 seg hseg hex, v1]
    · -- fall through to take_step
      rename_i r1 heq
      obtain ⟨v1, v2, v3, -⟩ := handle_type_spec _ _ _ _ _ _ heq
      have hle1 : r1.total_distance ≤ r1.visible_distance := by
        rw [v1, v3]; exact hle
      split at h
      · cases h
      · -- take_step broke out of the loop
        rename_i r2 hts
        rw [Option.some_inj] at h
        subst h
        obtain ⟨hb0, hb1, hb2, hb3⟩ := split_position_bounds
          ({ r with points := r.points ++ [r.end_position] } :
            CastingRay).end_position r.cell_map.square_size
        obtain ⟨w1, w2, w3, w4⟩ :=
          take_step_spec r1 _ n r2 true hb0 hb1 hb2 hb3 hle1 hts
        refine ⟨by rw [w1, v1], by rw [v1] at w3; exact w3, ?_⟩
        intro seg hseg hex
        rw [w4 rfl seg hseg hex, v1]
      · -- take_step committed: the loop continues
        rename_i r2 hts
        obtain ⟨hb0, hb1, hb2, hb3⟩ := split_position_bounds
          ({ r with points := r.points ++ [r.end_position] } :
            CastingRay).end_position r.cell_map.square_size
        obtain ⟨w1, w2, w3, -⟩ :=
          take_step_spec r1 _ n r2 false hb0 hb1 hb2 hb3 hle1 hts
        have hle2 : r2.total_distance ≤ r2.visible_distance := by
          rw [w1, v1] at *
          exact le_trans w3 (le_of_eq rfl)
        obtain ⟨u1, u2, u3⟩ := ih r2 res h hle2
        refine ⟨by rw [u1, w1, v1], ?_, ?_⟩
        · rw [u1, w1, v1] at *
          exact u2
        · intro seg hseg hex
          rw [u3 seg hseg hex, w1, v1]

/-- C2 (amended): For every completed cast with nonnegative visible
distance `D`, the final `total_distance` is at most `D`, and if the final
segment's `end_type` is the exhausted marker (the Python `False` tag) then
`total_distance` equals `D`.  (The converse direction of the original
claim is refuted by `exact_wall_total_eq_budget_not_exhausted`.) -/
theorem cast_total_le_visible (direction : Vec) (D : ℚ) (m : CellMap)
    (player_position : Vec) (fuel : ℕ) (res : CastingRay) (hD : 0 ≤ D)
    (h : (mkRay direction D m player_position).cast fuel = some res) :
    res.total_distance ≤ D ∧
    (∀ seg, res.segments.getLast? = some seg → seg.end_type = .exhausted →
      res.total_distance = D) := by
  obtain ⟨-, h2, h3⟩ := cast_loop_total fuel (mkRay direction D m player_position)
    res h (by rw [show (mkRay direction D m player_position).total_distance = 0
      from rfl, show (mkRay direction D m player_position).visible_distance = D
      from rfl]; exact hD)
  exact ⟨h2, h3⟩


set_option maxHeartbeats 1000000 in
theorem cast_total_le_visible_witness :
    exactWallRes.total_distance ≤ 3/2 ∧
    (∀ seg, exactWallRes.segments.getLast? = some seg →
      seg.end_type = .exhausted → exactWallRes.total_distance = 3/2) :=
  cast_total_le_visible (1, 0) (3/2) wallMap (1/2, 1/2) 20 exactWallRes
    (by norm_num) (by with_unfolding_all rfl)

lemma segInv_add (r : CastingRay) (t : EndType) (h : segInv r) :
    List.Chain' segRel (r.add_segment_and_point t).segments := by
  rw [add_segment_segments]
  refine List.chain'_append.mpr ⟨h.1, List.chain'_singleton _, ?_⟩
  intro x hx y hy
  simp only [List.head?_cons, Option.mem_def, Option.some_inj] at hy
  subst hy
  intro hnp
  exact h.2 x (by simpa using hx) hnp

lemma handle_type_segInv (r : CastingRay) (ct : CellType) (es : Side)
    (c : ℤ × ℤ) (r' : CastingRay) (a : CastAction)
    (heq : r.handle_type ct es c = (r', a)) (hinv : segInv r) :
    (a = .halt → List.Chain' segRel r'.segments) ∧
    (a ≠ .halt → segInv r') := by
  cases ct with
  | empty =>
    rw [show r.handle_type .empty es c = (r, .fall) from rfl] at heq
    injection heq with h1 h2
    subst h1; subst h2
    exact ⟨fun h => (nomatch h), fun _ => hinv⟩
  | wall w =>
    cases w with
    | NORMAL =>
      rw [show r.handle_type (.wall .NORMAL) es c =
        (r.add_segment_and_point (.wall .NORMAL), .halt) from rfl] at heq
      injection heq with h1 h2
      subst h1; subst h2
      exact ⟨fun _ => segInv_add r _ hinv, fun hne => absurd rfl hne⟩
    | BORDER =>
      rw [show r.handle_type (.wall .BORDER) es c = (r, .fall) from rfl] at heq
      injection heq with h1 h2
      subst h1; subst h2
      exact ⟨fun h => (nomatch h), fun _ => hinv⟩
  | mirror m =>
    rw [CastingRay.handle_type] at heq
    split at heq
    · injection heq with h1 h2
      subst h1; subst h2
      exact ⟨fun _ => segInv_add r _ hinv, fun hne => absurd rfl hne⟩
    · injection heq with h1 h2
      subst h1; subst h2
      refine ⟨fun h => (nomatch h), fun _ => ?_⟩
      obtain ⟨-, -, -, hsegs, hstart, hend⟩ := mirror_reflect_proj
        { (r.add_segment_and_point (.mirror m)) with
          start_position := (r.add_segment_and_point (.mirror m)).end_position,
          segment_distance := 0 } c es
      constructor
      · rw [hsegs]
        exact segInv_add r _ hinv
      · intro seg hseg hnp
        rw [hsegs] at hseg
        rw [show ({ (r.add_segment_and_point (.mirror m)) with
          start_position := (r.add_segment_and_point (.mirror m)).end_position,
          segment_distance := 0 } : CastingRay).segments =
            (r.add_segment_and_point (.mirror m)).segments from rfl,
          add_segment_getLast, Option.some_inj] at hseg
        subst hseg
        rw [hstart]
        rfl
  | portal p =>
    rw [CastingRay.handle_type] at heq
    split at heq
    · injection heq with h1 h2
      subst h1; subst h2
      exact ⟨fun _ => segInv_add r _ hinv, fun hne => absurd rfl hne⟩
    · injection heq with h1 h2
      subst h1; subst h2
      refine ⟨fun h => (nomatch h), fun _ => ?_⟩
      constructor
      · exact segInv_add r _ hinv
      · intro seg hseg hnp
        have hseg2 : (r.add_segment_and_point (.portal p)).segments.getLast? =
            some seg := hseg
        rw [add_segment_getLast, Option.some_inj] at hseg2
        subst hseg2
        cases hnp

lemma finish_step_chain (r : CastingRay) (adj : ℚ) (t : EndType)
    (hinv : segInv r) :
    List.Chain' segRel (r.finish_step adj t).segments := by
  rw [CastingRay.finish_step]
  exact segInv_add _ _ ⟨hinv.1, hinv.2⟩

lemma take_step_segInv (r : CastingRay) (cp : Vec) (fuel : ℕ)
    (r' : CastingRay) (b : Bool) (heq : r.take_step cp fuel = some (r', b))
    (hinv : segInv r) :
    (b = true → List.Chain' segRel r'.segments) ∧
    (b = false → segInv r') := by
  rw [CastingRay.take_step] at heq
  split at heq
  · rw [Option.some_inj] at heq
    injection heq with e1 e2
    subst e1; subst e2
    exact ⟨fun _ => finish_step_chain r _ _ hinv, fun h => (nomatch h)⟩
  · rename_i step_distance hstep
    simp only [] at heq
    split at heq
    · split at heq
      · rw [Option.some_inj] at heq
        injection heq with e1 e2
        subst e1; subst e2
        exact ⟨fun _ => finish_step_chain r _ _ hinv, fun h => (nomatch h)⟩
      · split at heq
        · cases heq
        · rename_i adjusted hshrink
          rw [Option.some_inj] at heq
          injection heq with e1 e2
          subst e1; subst e2
          exact ⟨fun _ => finish_step_chain r _ _ hinv, fun h => (nomatch h)⟩
    · rw [Option.some_inj] at heq
      injection heq with e1 e2
      subst e1; subst e2
      exact ⟨fun h => (nomatch h), fun _ => ⟨hinv.1, hinv.2⟩⟩

lemma cast_loop_chain : ∀ (fuel : ℕ) (r res : CastingRay),
    cast_loop fuel r = some res → segInv r →
    List.Chain' segRel res.segments := by
  intro fuel
  induction fuel with
  | zero => intro r res h _; cases h
  | succ n ih =>
    intro r res h hinv
    have hinv1 : segInv { r with points := r.points ++ [r.end_position] } :=
      ⟨hinv.1, hinv.2⟩
    rw [cast_loop] at h
    simp only [] at h
    split at h
    · rename_i r1 heq
      rw [Option.some_inj] at h
      subst h
      exact (handle_type_segInv _ _ _ _ _ _ heq hinv1).1 rfl
    · rename_i r1 heq
      exact ih r1 res h
        ((handle_type_segInv _ _ _ _ _ _ heq hinv1).2 (fun hc => (nomatch hc)))
    · rename_i r1 heq
      have hinv2 : segInv r1 :=
        (handle_type_segInv _ _ _ _ _ _ heq hinv1).2 (fun hc => (nomatch hc))
      split at h
      · cases h
      · rename_i r2 hts
        rw [Option.some_inj] at h
        subst h
        exact (take_step_segInv r1 _ n r2 true hts hinv2).1 rfl
      · rename_i r2 hts
        exact ih r2 res h ((take_step_segInv r1 _ n r2 false hts hinv2).2 rfl)

/-- C3 (amended): For every completed cast and every index `i` with
`i + 1 < len(segments)`, if `segments[i]` did not end at a portal teleport
then `segments[i].end_pos = segments[i+1].start_pos`; contiguity holds in
particular across mirror-reflection events, but not across portal
teleports (refuted by `portal_breaks_contiguity`). -/
theorem cast_segments_contiguous (direction : Vec) (D : ℚ) (m : CellMap)
    (player_position : Vec) (fuel : ℕ) (res : CastingRay)
    (h : (mkRay direction D m player_position).cast fuel = some res) :
    ∀ i (hi : i + 1 < res.segments.length),
      (res.segments.get ⟨i, by omega⟩).end_type.isPortal = false →
      (res.segments.get ⟨i, by omega⟩).end_pos =
        (res.segments.get ⟨i + 1, hi⟩).start_pos := by
  have hchain := cast_loop_chain fuel _ res h
    ⟨List.chain'_nil, fun seg hseg => (nomatch hseg)⟩
  intro i hi hnp
  exact List.chain'_iff_get.mp hchain i (by omega) hnp

set_option maxHeartbeats 1000000 in
lemma mirrorRes_two_segments : mirrorRes.segments.length = 2 := by
  with_unfolding_all rfl

set_option maxHeartbeats 1000000 in
theorem cast_segments_contiguous_witness :
    (mirrorRes.segments.get ⟨0, by rw [mirrorRes_two_segments]; omega⟩).end_pos =
      (mirrorRes.segments.get
        ⟨1, by rw [mirrorRes_two_segments]; omega⟩).start_pos :=
  cast_segments_contiguous (1, 0) 10 mirrorMap (1/2, 1/2) 30 mirrorRes
    (by with_unfolding_all rfl) 0 (by rw [mirrorRes_two_segments]; omega)
    (by with_unfolding_all rfl)

lemma qmod_nonneg (a : ℚ) : 0 ≤ qmod a 360 := by
  have h : qmod a 360 = 360 * Int.fract (a / 360) := by
    unfold qmod Int.fract
    have h360 : (360 : ℚ) ≠ 0 := by norm_num
    field_simp
  rw [h]
  have := Int.fract_nonneg (a / 360)
  linarith

lemma qmod_lt (a : ℚ) : qmod a 360 < 360 := by
  have h : qmod a 360 = 360 * Int.fract (a / 360) := by
    unfold qmod Int.fract
    have h360 : (360 : ℚ) ≠ 0 := by norm_num
    field_simp
  rw [h]
  have := Int.fract_lt_one (a / 360)
  linarith

lemma range_map_getD (n : ℕ) (c : ℚ) (k : ℕ) (hk : k < n) :
    (((List.range n).map fun i : ℕ => (i : ℚ) * c).getD k 0) = (k : ℚ) * c := by
  rw [List.getD_eq_get?, List.get?_map, List.get?_range hk]
  rfl

lemma median_arith_prog (n : ℕ) (c : ℚ) (hn : 1 ≤ n) :
    statistics_median ((List.range n).map fun i : ℕ => (i : ℚ) * c) =
      ((n : ℚ) - 1) * c / 2 := by
  have hlen : (((List.range n).map fun i : ℕ => (i : ℚ) * c)).length = n := by simp
  by_cases hc : 0 ≤ c
  · have hsorted : (((List.range n).map fun i : ℕ => (i : ℚ) * c)).Sorted (· ≤ ·) := by
      refine List.pairwise_map.mpr ((List.pairwise_lt_range n).imp ?_)
      intro i j hij
      exact mul_le_mul_of_nonneg_right (by exact_mod_cast hij.le) hc
    unfold statistics_median
    rw [hsorted.insertionSort_eq, hlen]
    by_cases hodd : n % 2 = 1
    · rw [if_pos hodd, range_map_getD n c _ (by omega)]
      have hk : (n : ℚ) = 2 * ((n / 2 : ℕ) : ℚ) + 1 := by
        exact_mod_cast congrArg (Nat.cast : ℕ → ℚ) (by omega : n = 2 * (n / 2) + 1)
      rw [hk]
      ring
    · rw [if_neg hodd, range_map_getD n c _ (by omega),
        range_map_getD n c _ (by omega)]
      have h2 : 1 ≤ n / 2 := by omega
      have hcast : ((n / 2 - 1 : ℕ) : ℚ) = ((n / 2 : ℕ) : ℚ) - 1 := by
        push_cast [Nat.cast_sub h2]
        ring
      have hk : (n : ℚ) = 2 * ((n / 2 : ℕ) : ℚ) := by
        exact_mod_cast congrArg (Nat.cast : ℕ → ℚ) (by omega : n = 2 * (n / 2))
      rw [hcast, hk]
      ring
  · push_neg at hc
    have hsorted : (((List.range n).map fun i : ℕ => (i : ℚ) * c).reverse).Sorted
        (· ≤ ·) := by
      refine List.pairwise_reverse.mpr ?_
      refine List.pairwise_map.mpr ((List.pairwise_lt_range n).imp ?_)
      intro i j hij
      exact mul_le_mul_of_nonpos_right (by exact_mod_cast hij.le) hc.le
    have hperm : List.insertionSort (· ≤ ·)
          ((List.range n).map fun i : ℕ => (i : ℚ) * c) =
        ((List.range n).map fun i : ℕ => (i : ℚ) * c).reverse := by
      refine List.eq_of_perm_of_sorted ?_ (List.sorted_insertionSort _ _) hsorted
      exact (List.perm_insertionSort _ _).trans (List.reverse_perm _).symm
    have hrev : ∀ k, k < n →
        ((((List.range n).map fun i : ℕ => (i : ℚ) * c).reverse).getD k 0) =
          ((n - 1 - k : ℕ) : ℚ) * c := by
      intro k hk
      rw [List.getD_eq_get?, List.get?_reverse (by omega), hlen,
        ← List.getD_eq_get?, range_map_getD n c _ (by omega)]
    unfold statistics_median
    rw [hperm, hlen]
    by_cases hodd : n % 2 = 1
    · rw [if_pos hodd, hrev _ (by omega)]
      have hk : ((n - 1 - n / 2 : ℕ) : ℚ) = ((n : ℚ) - 1) / 2 := by
        have h1 : n - 1 - n / 2 = n / 2 := by omega
        have h2 : (n : ℚ) = 2 * ((n / 2 : ℕ) : ℚ) + 1 := by
          exact_mod_cast congrArg (Nat.cast : ℕ → ℚ) (by omega : n = 2 * (n / 2) + 1)
        rw [h1, h2]
        ring
      rw [hk]
      ring
    · rw [if_neg hodd, hrev _ (by omega), hrev _ (by omega)]
      have h2 : 1 ≤ n / 2 := by omega
      have e1 : n - 1 - (n / 2 - 1) = n / 2 := by omega
      have e2 : n - 1 - n / 2 = n / 2 - 1 := by omega
      rw [e1, e2]
      have hcast : ((n / 2 - 1 : ℕ) : ℚ) = ((n / 2 : ℕ) : ℚ) - 1 := by
        push_cast [Nat.cast_sub h2]
        ring
      have hk : (n : ℚ) = 2 * ((n / 2 : ℕ) : ℚ) := by
        exact_mod_cast congrArg (Nat.cast : ℕ → ℚ) (by omega : n = 2 * (n / 2))
      rw [hcast, hk]
      ring

lemma range_map_getD' (n : ℕ) (f : ℕ → ℚ) (k : ℕ) (hk : k < n) :
    (((List.range n).map f).getD k 0) = f k := by
  rw [List.getD_eq_get?, List.get?_map, List.get?_range hk]
  rfl

/-- C9: For every center angle, field of view and ray count `n ≥ 1`,
`Raycaster.distribute_angles` returns exactly `n` angles, the `i`-th being
`(center + (i - (n-1)/2) * interval) mod 360` with
`interval = fov/(n-1)` — evenly spaced at that interval and centered on
the center angle — each normalized into `[0, 360)`; when `n = 1` the
interval falls back to the nominal 1 degree and the single angle is
`center mod 360`. -/
theorem distribute_angles_spec (fov center : ℚ) (n : ℕ) (hn : 1 ≤ n) :
    (distribute_angles fov n center).length = n ∧
    ∀ i, i < n →
      (distribute_angles fov n center).getD i 0 =
        qmod (center + ((i : ℚ) - ((n : ℚ) - 1) / 2) *
          (if n > 1 then fov / ((n : ℚ) - 1) else 1)) 360 ∧
      0 ≤ (distribute_angles fov n center).getD i 0 ∧
      (distribute_angles fov n center).getD i 0 < 360 := by
  have hunfold : distribute_angles fov n center =
      (List.range n).map (fun k : ℕ =>
        qmod ((k : ℚ) * (if n > 1 then fov / ((n : ℚ) - 1) else 1) +
          (center - ((n : ℚ) - 1) *
            (if n > 1 then fov / ((n : ℚ) - 1) else 1) / 2)) 360) := by
    unfold distribute_angles
    dsimp only
    rw [median_arith_prog n _ hn, List.map_map]
    rfl
  constructor
  · rw [hunfold]
    simp
  · intro i hi
    rw [hunfold, range_map_getD' n _ i hi]
    refine ⟨?_, qmod_nonneg _, qmod_lt _⟩
    have harg : (i : ℚ) * (if n > 1 then fov / ((n : ℚ) - 1) else 1) +
        (center - ((n : ℚ) - 1) *
          (if n > 1 then fov / ((n : ℚ) - 1) else 1) / 2) =
        center + ((i : ℚ) - ((n : ℚ) - 1) / 2) *
          (if n > 1 then fov / ((n : ℚ) - 1) else 1) := by
      ring
    rw [harg]

set_option maxHeartbeats 400000 in
theorem distribute_angles_spec_witness :
    (distribute_angles 90 4 10).length = 4 ∧
    ∀ i, i < 4 →
      (distribute_angles 90 4 10).getD i 0 =
        qmod (10 + ((i : ℚ) - ((4 : ℚ) - 1) / 2) *
          (if (4:ℕ) > 1 then 90 / ((4 : ℚ) - 1) else 1)) 360 ∧
      0 ≤ (distribute_angles 90 4 10).getD i 0 ∧
      (distribute_angles 90 4 10).getD i 0 < 360 :=
  distribute_angles_spec 90 10 4 (by norm_num)
